import Mathlib

set_option maxRecDepth 10000

/-!
Shallow embedding of the `sysmon` system-monitor: the metric-derivation and
formatting functions of `src/sysmon/analysis.py`, `src/sysmon/collectors.py`
and `src/sysmon/network.py`, with theorems about them.

Modelling conventions: Python `float` values are modelled as `ℚ` (the float
operations the code performs on them are division and comparison), Python
`int` as `ℤ`, `None` as `Option.none`.  Functions that read the outside world
(`time.time()`, `psutil` probes, the `route` subprocess) take those readings
as explicit arguments, in the order the code performs them.
-/

namespace Sysmon

/-! ### `analysis.py` -/

/-- `CpuCapacity` from `analysis.py`: `logical: int`, `physical: int | None`. -/
structure CpuCapacity where
  logical : Int
  physical : Option Int
deriving Repr, DecidableEq

/-- `smt_status` from `analysis.py` lines 11–22. -/
def smt_status (cap : CpuCapacity) : String :=
  match cap.physical with
  | none => "unknown"
  | some p =>
    if p ≤ 0 ∨ cap.logical ≤ 0 then "unknown"
    else if cap.logical > p then "on"
    else if cap.logical = p then "off"
    else "unknown"

/-- `normalize_load` from `analysis.py` lines 25–33. -/
def normalize_load (load_1m : Option ℚ) (logical_cpus : Int) : Option ℚ :=
  match load_1m with
  | none => none
  | some l => if logical_cpus ≤ 0 then none else some (l / (logical_cpus : ℚ))

/-- `cpu_health_label` from `analysis.py` lines 37–57. -/
def cpu_health_label (cpu_percent : ℚ) (load_frac_1m : Option ℚ) : String :=
  match load_frac_1m with
  | some lf =>
    if lf < 0.60 then "OK"
    else if lf < 0.90 then "BUSY"
    else if lf < 1.10 then "SATURATED"
    else "OVERLOADED"
  | none =>
    if cpu_percent < 60.0 then "OK"
    else if cpu_percent < 85.0 then "BUSY"
    else if cpu_percent < 95.0 then "SATURATED"
    else "OVERLOADED"

/-! ### Numeric rendering helpers shared by the formatters

Python's `f"{x:.2f}"` / `f"{x:.0f}"` print the value rounded to the given
number of decimal places, ties to even; `int(x)` truncates toward zero. -/

/-- `math.floor` on a rational: `⌊num/den⌋ = num.fdiv den` (the denominator is
positive). -/
def ratFloor (q : ℚ) : Int := q.num.fdiv (q.den : Int)

/-- Python `int(x)`: truncation toward zero. -/
def pyInt (q : ℚ) : Int := if q < 0 then -(ratFloor (-q)) else ratFloor q

/-- Round to the nearest integer, ties to even (the rounding used by `%.Nf`
formatting). -/
def roundHalfEven (q : ℚ) : Int :=
  let f := ratFloor q
  let r := q - (f : ℚ)
  if r < 1 / 2 then f
  else if 1 / 2 < r then f + 1
  else if f % 2 = 0 then f else f + 1

/-- `f"{q:.{prec}f}"`: fixed-point rendering with exactly `prec` digits after
the point. -/
def formatFixed (prec : Nat) (q : ℚ) : String :=
  let p : Nat := 10 ^ prec
  let n := roundHalfEven (q * (p : ℚ))
  let a := n.natAbs
  let sign := if n < 0 ∨ (n = 0 ∧ q < 0) then "-" else ""
  if prec = 0 then sign ++ toString a
  else
    let fs := toString (a % p)
    let pad := String.mk (List.replicate (prec - fs.length) '0')
    sign ++ toString (a / p) ++ "." ++ pad ++ fs

/-- The rescaling loop `while x >= 1024 and i < len(units) - 1` shared by
`fmt_bytes` and `fmt_rate`: `fuel` is the number of divisions still allowed
(`len(units) - 1 - i`), `i` the current unit index.  Returns the scaled value
and the final index. -/
def scaleGo : Nat → ℚ → Nat → ℚ × Nat
  | 0, x, i => (x, i)
  | fuel + 1, x, i => if 1024 ≤ x then scaleGo fuel (x / 1024) (i + 1) else (x, i)

/-! ### `collectors.py` formatters -/

/-- The unit ladder of `fmt_bytes` (`collectors.py` line 112). -/
def bytesUnits : List String := ["B", "KB", "MB", "GB", "TB", "PB"]

/-- `fmt_bytes` from `collectors.py` lines 111–120. -/
def fmt_bytes (n : Int) : String :=
  let r := scaleGo (bytesUnits.length - 1) (n : ℚ) 0
  if r.2 = 0 then
    let v := pyInt r.1
    toString v ++ " " ++ bytesUnits.getD r.2 ""
  else formatFixed 2 r.1 ++ " " ++ bytesUnits.getD r.2 ""

/-- `fmt_uptime` from `collectors.py` lines 123–132, split at the one impure
line: the body after `seconds = int(time.time() - boot_time_unix)` as a
function of `seconds`.  Python `divmod` is floor division and remainder. -/
def fmt_uptime_s (seconds : Int) : String :=
  let days := seconds.fdiv 86400
  let rem := seconds.fmod 86400
  let hours := rem.fdiv 3600
  let rem2 := rem.fmod 3600
  let mins := rem2.fdiv 60
  let secs := rem2.fmod 60
  if days > 0 then s!"{days}d {hours}h {mins}m"
  else if hours > 0 then s!"{hours}h {mins}m"
  else s!"{mins}m {secs}s"

/-- `fmt_uptime` with its reading of the ambient clock made explicit:
`now_unix` is the value `time.time()` returns during the call. -/
def fmt_uptime (now_unix boot_time_unix : ℚ) : String :=
  fmt_uptime_s (pyInt (now_unix - boot_time_unix))

/-! ### `network.py` -/

/-- `IfaceRate` from `network.py` lines 8–16. -/
structure IfaceRate where
  name : String
  is_up : Bool
  speed_mbps : Option Int
  rx_bps : ℚ
  tx_bps : ℚ
  rx_bytes : Int
  tx_bytes : Int
deriving Repr, DecidableEq

/-- `NetworkRates` from `network.py` lines 19–24. -/
structure NetworkRates where
  sample_seconds : ℚ
  total_rx_bps : ℚ
  total_tx_bps : ℚ
  ifaces : List IfaceRate
deriving Repr, DecidableEq

/-- One entry of a `psutil.net_io_counters(pernic=True)` reading (the two
fields the code uses). -/
structure NetIOCounters where
  bytes_recv : Int
  bytes_sent : Int
deriving Repr, DecidableEq

/-- One entry of a `psutil.net_if_stats()` reading (the two fields the code
uses). -/
structure IfStat where
  isup : Bool
  speed : Option Int
deriving Repr, DecidableEq

/-- The body of the `for name, s2 in stats2.items()` loop of
`collect_network_rates` (`network.py` lines 63–89) for one second-reading
entry: `none` when the name is absent from the first reading (`continue`),
otherwise the constructed `IfaceRate`.  `sample_seconds` is the already
clamped value. -/
def mkIfaceRate (sample_seconds : ℚ) (stats1 : List (String × NetIOCounters))
    (ifstats : List (String × IfStat)) (e : String × NetIOCounters) :
    Option IfaceRate :=
  match stats1.lookup e.1 with
  | none => none
  | some s1 =>
    let s2 := e.2
    let rx_bps : ℚ := ((s2.bytes_recv - s1.bytes_recv : Int) : ℚ) / sample_seconds
    let tx_bps : ℚ := ((s2.bytes_sent - s1.bytes_sent : Int) : ℚ) / sample_seconds
    let st := ifstats.lookup e.1
    let is_up := match st with
      | some t => t.isup
      | none => false
    let speed : Option Int := match st with
      | some t =>
        match t.speed with
        | some sp => if sp > 0 then some sp else none
        | none => none
      | none => none
    some { name := e.1, is_up := is_up, speed_mbps := speed,
           rx_bps := rx_bps, tx_bps := tx_bps,
           rx_bytes := s2.bytes_recv, tx_bytes := s2.bytes_sent }

/-- The whole counter loop of `collect_network_rates`: accumulates the
`ifaces` list (appending, as `list.append` does) and the running totals
`total_rx` / `total_tx`, which only interfaces with `is_up` contribute to. -/
def collectLoop (sample_seconds : ℚ) (stats1 : List (String × NetIOCounters))
    (ifstats : List (String × IfStat)) :
    List (String × NetIOCounters) → List IfaceRate × ℚ × ℚ →
    List IfaceRate × ℚ × ℚ
  | [], acc => acc
  | e :: rest, (l, trx, ttx) =>
    match mkIfaceRate sample_seconds stats1 ifstats e with
    | none => collectLoop sample_seconds stats1 ifstats rest (l, trx, ttx)
    | some r =>
      collectLoop sample_seconds stats1 ifstats rest
        (l ++ [r],
         if r.is_up then trx + r.rx_bps else trx,
         if r.is_up then ttx + r.tx_bps else ttx)

/-- The sort key comparison of `network.py` line 94: Python compares the
tuples `(not x.is_up, -(x.rx_bps + x.tx_bps), x.name)` lexicographically;
`sortKeyLe a b` decides `key a ≤ key b` (for `Bool`, `False < True`). -/
def sortKeyLe (a b : IfaceRate) : Bool :=
  let a1 := !a.is_up
  let b1 := !b.is_up
  let a2 : ℚ := -(a.rx_bps + a.tx_bps)
  let b2 : ℚ := -(b.rx_bps + b.tx_bps)
  (!a1 && b1) ||
    (a1 == b1 && (decide (a2 < b2) || (a2 == b2 && decide (a.name ≤ b.name))))

/-- The sort key itself, as a value of the lexicographic product order
(`False < True` on `Bool`): `sortKeyLe` decides its `≤`. -/
def sortKey (a : IfaceRate) : Lex (Bool × Lex (ℚ × String)) :=
  toLex (!a.is_up, toLex (-(a.rx_bps + a.tx_bps), a.name))

/-- `collect_network_rates` from `network.py` lines 47–101, as a function of
the readings it takes from the outside world, in the order the code takes
them: the first counter reading `stats1`, the single `net_if_stats()` reading
`ifstats` (taken before the `time.sleep`), and the second counter reading
`stats2` (taken after it).  Python's `list.sort` is a stable sort by the key
tuple, modelled by `List.mergeSort` with `sortKeyLe`. -/
def collect_network_rates (sample_seconds : ℚ)
    (stats1 : List (String × NetIOCounters)) (ifstats : List (String × IfStat))
    (stats2 : List (String × NetIOCounters)) : NetworkRates :=
  let s := if sample_seconds ≤ 0 then 0.1 else sample_seconds
  let r := collectLoop s stats1 ifstats stats2 ([], 0, 0)
  { sample_seconds := s
    total_rx_bps := r.2.1
    total_tx_bps := r.2.2
    ifaces := r.1.mergeSort sortKeyLe }

/-- The reads `collect_network_rates` performs, in program order
(`network.py` lines 52–58): the first counter reading `counters_t1` and the
single `net_if_stats()` call `ifstats_t1` happen before the `time.sleep`;
the second counter reading `counters_t2` happens after it.  `ifstats_t2`
records what the link states are at the time of the second reading; the code
never reads it. -/
structure NetWorld where
  counters_t1 : List (String × NetIOCounters)
  ifstats_t1 : List (String × IfStat)
  counters_t2 : List (String × NetIOCounters)
  ifstats_t2 : List (String × IfStat)
deriving Repr, DecidableEq

/-- `collect_network_rates` run against a `NetWorld`: the code feeds the
link-state sample taken before the sleep (`ifstats_t1`) into the counter
loop. -/
def run_collect (w : NetWorld) (sample_seconds : ℚ) : NetworkRates :=
  collect_network_rates sample_seconds w.counters_t1 w.ifstats_t1 w.counters_t2

/-- The aggregation described by the spec sentence "totals sum only
interfaces whose link state at the second reading is up": the same collector,
but fed the link states as of the second counter reading (`ifstats_t2`).
Written from the spec's words, for comparison with `run_collect`. -/
def run_collect_specStates (w : NetWorld) (sample_seconds : ℚ) : NetworkRates :=
  collect_network_rates sample_seconds w.counters_t1 w.ifstats_t2 w.counters_t2

/-- The loopback exclusion set of `likely_uplink` (`network.py` line 112). -/
def exclude_names : List String := ["lo0"]

/-- The virtual-adapter name-beginnings excluded by `likely_uplink`
(`network.py` line 113). -/
def exclude_starts : List String := ["awdl", "bridge", "llw", "ap"]

/-- The candidate filter of `likely_uplink` (`network.py` lines 115–120):
up, name not in the exclusion set, name not starting with any excluded
beginning. -/
def uplinkCandidates (ifaces : List IfaceRate) : List IfaceRate :=
  ifaces.filter fun i =>
    i.is_up && !(exclude_names.contains i.name) &&
      !(exclude_starts.any fun p => i.name.startsWith p)

/-- Python's `max(c :: cs, key=f)`: scan with the current best, replacing it
only when a later element's key is strictly greater, so the first element
with the maximal key wins. -/
def maxByKeyGo (f : IfaceRate → ℚ) : IfaceRate → List IfaceRate → IfaceRate
  | best, [] => best
  | best, x :: xs => maxByKeyGo f (if f best < f x then x else best) xs

/-- `likely_uplink` from `network.py` lines 103–126, with the result of the
`default_route_interface()` subprocess probe passed in as `dr`.  The loop
`for i in ifaces: if i.name == dr: return i` returns the first match; when it
finds none (or `dr` is `None`) the traffic heuristic runs. -/
def likely_uplink (dr : Option String) (ifaces : List IfaceRate) :
    Option IfaceRate :=
  let fromRoute : Option IfaceRate :=
    match dr with
    | none => none
    | some d => ifaces.find? fun i => i.name == d
  match fromRoute with
  | some i => some i
  | none =>
    match uplinkCandidates ifaces with
    | [] => none
    | c :: cs => some (maxByKeyGo (fun i => i.rx_bps + i.tx_bps) c cs)

/-- `fmt_rate`'s unit ladder (`network.py` line 132): it stops at `GB/s`. -/
def rateUnits : List String := ["B/s", "KB/s", "MB/s", "GB/s"]

/-- `fmt_rate` from `network.py` lines 130–140. -/
def fmt_rate (bps : ℚ) : String :=
  let r := scaleGo (rateUnits.length - 1) bps 0
  if r.2 = 0 then formatFixed 0 r.1 ++ " " ++ rateUnits.getD r.2 ""
  else formatFixed 2 r.1 ++ " " ++ rateUnits.getD r.2 ""

/-- The unit index `fmt_bytes` ends its rescaling loop at. -/
def bytesUnitIndex (x : ℚ) : Nat := (scaleGo (bytesUnits.length - 1) x 0).2

/-- The unit index `fmt_rate` ends its rescaling loop at. -/
def rateUnitIndex (x : ℚ) : Nat := (scaleGo (rateUnits.length - 1) x 0).2

/-! ### Helper lemmas -/

theorem scaleGo_snd_ge (fuel : Nat) (x : ℚ) (i : Nat) :
    i ≤ (scaleGo fuel x i).2 := by
  induction fuel generalizing x i with
  | zero => exact le_refl i
  | succ f ih =>
    simp only [scaleGo]
    split
    · exact le_trans (Nat.le_succ i) (ih _ _)
    · exact le_refl i

theorem scaleGo_snd_min (f g : Nat) (x : ℚ) (i : Nat) (h : f ≤ g) :
    (scaleGo f x i).2 = min ((scaleGo g x i).2) (i + f) := by
  induction f generalizing g x i with
  | zero =>
    simpa [scaleGo] using (Nat.min_eq_right (scaleGo_snd_ge g x i)).symm
  | succ f ih =>
    cases g with
    | zero => omega
    | succ g =>
      by_cases hx : (1024 : ℚ) ≤ x
      · simp only [scaleGo, if_pos hx]
        have := ih g (x / 1024) (i + 1) (by omega)
        omega
      · simp only [scaleGo, if_neg hx]
        omega

end Sysmon

namespace Sysmon

/-! ### Claim theorems: health classifier and SMT status -/

/-- C6: `cpu_health_label` classifies by the normalized load fraction whenever
it is present (the CPU percent is then ignored) and falls back to the raw CPU
percent only when it is absent; all comparisons are strict `<`, so a value
exactly at a threshold belongs to the next band: by load fraction OK below
0.60, BUSY on [0.60, 0.90), SATURATED on [0.90, 1.10), OVERLOADED from 1.10;
by CPU percent OK below 60, BUSY on [60, 85), SATURATED on [85, 95),
OVERLOADED from 95. -/
theorem cpu_health_label_bands (p x : ℚ) :
    (cpu_health_label p (some x) = "OK" ↔ x < 0.60) ∧
    (cpu_health_label p (some x) = "BUSY" ↔ 0.60 ≤ x ∧ x < 0.90) ∧
    (cpu_health_label p (some x) = "SATURATED" ↔ 0.90 ≤ x ∧ x < 1.10) ∧
    (cpu_health_label p (some x) = "OVERLOADED" ↔ 1.10 ≤ x) ∧
    (cpu_health_label p none = "OK" ↔ p < 60.0) ∧
    (cpu_health_label p none = "BUSY" ↔ 60.0 ≤ p ∧ p < 85.0) ∧
    (cpu_health_label p none = "SATURATED" ↔ 85.0 ≤ p ∧ p < 95.0) ∧
    (cpu_health_label p none = "OVERLOADED" ↔ 95.0 ≤ p) := by
  refine ⟨?_, ?_, ?_, ?_, ?_, ?_, ?_, ?_⟩ <;>
    simp only [cpu_health_label] <;>
    split_ifs <;>
    simp_all <;>
    intros <;>
    linarith

/-- C7: `smt_status` returns `"unknown"` when `physical` is absent or `≤ 0` or
`logical ≤ 0`; otherwise `"on"` iff `logical > physical`, `"off"` iff
`logical = physical`, and `"unknown"` in the residual anomalous case
`logical < physical`. -/
theorem smt_status_spec (l : Int) :
    smt_status ⟨l, none⟩ = "unknown" ∧
    ∀ p : Int,
      ((p ≤ 0 ∨ l ≤ 0) → smt_status ⟨l, some p⟩ = "unknown") ∧
      (0 < p → 0 < l →
        ((smt_status ⟨l, some p⟩ = "on" ↔ p < l) ∧
         (smt_status ⟨l, some p⟩ = "off" ↔ l = p) ∧
         (smt_status ⟨l, some p⟩ = "unknown" ↔ l < p))) := by
  refine ⟨rfl, fun p => ⟨?_, fun hp hl => ⟨?_, ?_, ?_⟩⟩⟩ <;>
    simp only [smt_status] <;>
    split_ifs <;>
    simp_all <;>
    omega

/-- Closed instances of `smt_status_spec`: `(8, 4) ⇒ "on"`, `(4, 4) ⇒ "off"`,
`(2, 4) ⇒ "unknown"`, `(4, 0) ⇒ "unknown"`. -/
theorem smt_status_spec_witness :
    smt_status ⟨8, some 4⟩ = "on" ∧ smt_status ⟨4, some 4⟩ = "off" ∧
    smt_status ⟨2, some 4⟩ = "unknown" ∧ smt_status ⟨4, some 0⟩ = "unknown" :=
  ⟨(((smt_status_spec 8).2 4).2 (by norm_num) (by norm_num)).1.mpr (by norm_num),
   (((smt_status_spec 4).2 4).2 (by norm_num) (by norm_num)).2.1.mpr rfl,
   (((smt_status_spec 2).2 4).2 (by norm_num) (by norm_num)).2.2.mpr (by norm_num),
   ((smt_status_spec 4).2 0).1 (Or.inl le_rfl)⟩

/-! ### Claim theorems: uptime formatting -/

/-- C3 counterexample: the code renders an elapsed time of 90000 seconds as
`"1d 1h 0m"` — three units — not as the claimed two-unit `"1d 1h"`. -/
theorem fmt_uptime_90000_cex :
    fmt_uptime 90000 0 ≠ "1d 1h" ∧ fmt_uptime 90000 0 = "1d 1h 0m" := by
  with_unfolding_all decide

/-- C3 amended: `fmt_uptime` displays `"{days}d {hours}h {mins}m"` (three
units) when `days > 0`, `"{hours}h {mins}m"` when `hours > 0` and `days = 0`,
and `"{mins}m {secs}s"` otherwise; only the seconds (never the minutes) are
dropped from display when `days > 0`, and 3700 elapsed seconds still render
as `"1h 1m"`. -/
theorem fmt_uptime_cases (d h m s : Int)
    (hh : 0 ≤ h) (hh24 : h < 24) (hm : 0 ≤ m) (hm60 : m < 60)
    (hs : 0 ≤ s) (hs60 : s < 60) :
    (0 < d → fmt_uptime_s (86400 * d + 3600 * h + 60 * m + s) =
      s!"{d}d {h}h {m}m") ∧
    (d = 0 → 0 < h → fmt_uptime_s (86400 * d + 3600 * h + 60 * m + s) =
      s!"{h}h {m}m") ∧
    (d = 0 → h = 0 → fmt_uptime_s (86400 * d + 3600 * h + 60 * m + s) =
      s!"{m}m {s}s") := by
  have hsub : 0 ≤ 3600 * h + 60 * m + s ∧ 3600 * h + 60 * m + s < 86400 := by
    constructor <;> nlinarith
  have hA : (86400 * d + 3600 * h + 60 * m + s).fdiv 86400 = d := by
    rw [Int.fdiv_eq_ediv _ (by norm_num)]; omega
  have hB : (86400 * d + 3600 * h + 60 * m + s).fmod 86400
      = 3600 * h + 60 * m + s := by
    rw [Int.fmod_eq_emod _ (by norm_num)]; omega
  have hC : (3600 * h + 60 * m + s).fdiv 3600 = h := by
    rw [Int.fdiv_eq_ediv _ (by norm_num)]; omega
  have hD : (3600 * h + 60 * m + s).fmod 3600 = 60 * m + s := by
    rw [Int.fmod_eq_emod _ (by norm_num)]; omega
  have hE : (60 * m + s).fdiv 60 = m := by
    rw [Int.fdiv_eq_ediv _ (by norm_num)]; omega
  have hF : (60 * m + s).fmod 60 = s := by
    rw [Int.fmod_eq_emod _ (by norm_num)]; omega
  refine ⟨fun hd0 => ?_, fun hd0 hh0 => ?_, fun hd0 hh0 => ?_⟩ <;>
    simp only [fmt_uptime_s, hA, hB, hC, hD, hE, hF] <;>
    subst_vars <;>
    simp_all

/-- Closed instances of `fmt_uptime_cases`: 90000 s is 1 d, 1 h, 0 m, 0 s and
renders with three units; 3700 s is 1 h, 1 m, 40 s and renders as
`"1h 1m"`. -/
theorem fmt_uptime_cases_witness :
    fmt_uptime_s 90000 = "1d 1h 0m" ∧ fmt_uptime_s 3700 = "1h 1m" := by
  constructor
  · have h := (fmt_uptime_cases 1 1 0 0 (by norm_num) (by norm_num)
      (by norm_num) (by norm_num) (by norm_num) (by norm_num)).1 (by norm_num)
    norm_num at h
    exact h.trans (by with_unfolding_all decide)
  · have h := (fmt_uptime_cases 0 1 1 40 (by norm_num) (by norm_num)
      (by norm_num) (by norm_num) (by norm_num) (by norm_num)).2.1 rfl
      (by norm_num)
    norm_num at h
    exact h.trans (by with_unfolding_all decide)

/-! ### Claim theorems: formatter purity -/

/-- C9 counterexample: `fmt_uptime` reads the ambient clock (`time.time()`),
so two invocations with the identical argument `boot_time_unix = 0` return
different strings when the clock reads 90000 versus 3700. -/
theorem fmt_uptime_clock_cex : fmt_uptime 90000 0 ≠ fmt_uptime 3700 0 := by
  with_unfolding_all decide

/-- C9 amended: `fmt_bytes` and `fmt_rate` are deterministic functions of
their argument alone, but `fmt_uptime` additionally depends on the current
clock: there are two clock readings under which invocations with the
identical `boot_time_unix` argument return different strings. -/
theorem formatter_purity (a b : Int) (x y : ℚ) (hab : a = b) (hxy : x = y) :
    fmt_bytes a = fmt_bytes b ∧ fmt_rate x = fmt_rate y ∧
    ∃ t₁ t₂ boot : ℚ, fmt_uptime t₁ boot ≠ fmt_uptime t₂ boot :=
  ⟨by rw [hab], by rw [hxy], 90000, 3700, 0, by with_unfolding_all decide⟩

/-- Closed instance of `formatter_purity` at `a = b = 1024`,
`x = y = 1536`. -/
theorem formatter_purity_witness :
    fmt_bytes 1024 = fmt_bytes 1024 ∧ fmt_rate 1536 = fmt_rate 1536 ∧
    ∃ t₁ t₂ boot : ℚ, fmt_uptime t₁ boot ≠ fmt_uptime t₂ boot :=
  formatter_purity 1024 1024 1536 1536 rfl rfl

/-! ### Claim theorems: rate formatting scale -/

/-- C8 counterexample: at `1024^4` bytes(-per-second) `fmt_bytes` moves to the
`TB` unit but `fmt_rate`'s ladder stops at `GB/s`, so the chosen units
differ: `"1.00 TB"` versus `"1024.00 GB/s"`. -/
theorem fmt_rate_unit_cap_cex :
    bytesUnitIndex ((1024 : ℚ) ^ 4) = 4 ∧ rateUnitIndex ((1024 : ℚ) ^ 4) = 3 ∧
    fmt_bytes (1024 ^ 4) = "1.00 TB" ∧
    fmt_rate ((1024 : ℚ) ^ 4) = "1024.00 GB/s" := by
  with_unfolding_all decide

/-- C8 amended: `fmt_rate` applies the same binary (1024-based) scaling as
`fmt_bytes`, but its unit ladder stops at `GB/s`: the unit index it chooses
is the `fmt_bytes` index capped at 3, so the two agree exactly on inputs
below `1024^4`; its units are the first four `fmt_bytes` units with a
`"/s"` suffix; the base unit renders with zero decimal places and the
others with exactly two. -/
theorem fmt_rate_scaling (x : ℚ) :
    rateUnitIndex x = min (bytesUnitIndex x) 3 ∧
    rateUnits = (bytesUnits.take 4).map (fun u => u ++ "/s") ∧
    fmt_rate 512 = "512 B/s" ∧ fmt_rate 1536 = "1.50 KB/s" := by
  refine ⟨?_, rfl, by with_unfolding_all decide, by with_unfolding_all decide⟩
  simpa [rateUnitIndex, bytesUnitIndex, rateUnits, bytesUnits] using
    scaleGo_snd_min 3 5 x 0 (by norm_num)

/-! ### Claim theorems: uplink selection -/

theorem maxByKeyGo_spec (f : IfaceRate → ℚ) (xs : List IfaceRate)
    (best : IfaceRate) :
    (∀ j ∈ xs, f j ≤ f (maxByKeyGo f best xs)) ∧
    f best ≤ f (maxByKeyGo f best xs) ∧
    (maxByKeyGo f best xs = best ∨
      ∃ pre post, xs = pre ++ maxByKeyGo f best xs :: post ∧
        f best < f (maxByKeyGo f best xs) ∧
        ∀ j ∈ pre, f j < f (maxByKeyGo f best xs)) := by
  induction xs generalizing best with
  | nil => exact ⟨by simp, le_refl _, Or.inl rfl⟩
  | cons x rest ih =>
    simp only [maxByKeyGo]
    by_cases hx : f best < f x
    · simp only [if_pos hx]
      obtain ⟨ih1, ih2, ih3⟩ := ih x
      generalize hM : maxByKeyGo f x rest = M at ih1 ih2 ih3 ⊢
      refine ⟨?_, le_of_lt (lt_of_lt_of_le hx ih2), ?_⟩
      · intro j hj
        rcases List.mem_cons.mp hj with rfl | hj
        · exact ih2
        · exact ih1 j hj
      · rcases ih3 with heq | ⟨pre, post, hsplit, hlt, hpre⟩
        · refine Or.inr ⟨[], rest, ?_, ?_, by simp⟩
          · rw [heq, List.nil_append]
          · rw [heq]; exact hx
        · refine Or.inr ⟨x :: pre, post, congrArg (List.cons x) hsplit,
            lt_trans hx hlt, ?_⟩
          intro j hj
          rcases List.mem_cons.mp hj with rfl | hj
          · exact hlt
          · exact hpre j hj
    · simp only [if_neg hx]
      obtain ⟨ih1, ih2, ih3⟩ := ih best
      generalize hM : maxByKeyGo f best rest = M at ih1 ih2 ih3 ⊢
      refine ⟨?_, ih2, ?_⟩
      · intro j hj
        rcases List.mem_cons.mp hj with rfl | hj
        · exact le_trans (le_of_not_lt hx) ih2
        · exact ih1 j hj
      · rcases ih3 with heq | ⟨pre, post, hsplit, hlt, hpre⟩
        · exact Or.inl heq
        · refine Or.inr ⟨x :: pre, post, congrArg (List.cons x) hsplit,
            hlt, ?_⟩
          intro j hj
          rcases List.mem_cons.mp hj with rfl | hj
          · exact lt_of_le_of_lt (le_of_not_lt hx) hlt
          · exact hpre j hj

/-- C1: `likely_uplink` follows the four-step procedure.  (1) When the
default-route probe yields a name carried by some interface of the input
list, the first interface with that name is returned, with no condition on
its up/down flag or the exclusion tables.  (2–4) Otherwise — probe returned
nothing, or the name matches no interface — the candidates are the up
interfaces whose name is not in the loopback exclusion set and does not
start with an excluded virtual-adapter beginning; if none remain the result
is `none` (a valid outcome); else the result is the candidate maximizing
`rx_bps + tx_bps`, ties resolved to the earliest candidate in the input
order (every strictly earlier candidate has a strictly smaller sum). -/
theorem likely_uplink_procedure (dr : Option String)
    (ifaces : List IfaceRate) :
    (∀ d, dr = some d → (∃ i ∈ ifaces, i.name = d) →
      ∃ j, likely_uplink dr ifaces = some j ∧ j ∈ ifaces ∧ j.name = d ∧
        ifaces.find? (fun i => i.name == d) = some j) ∧
    ((dr = none ∨ ∀ d, dr = some d → ∀ i ∈ ifaces, i.name ≠ d) →
      ((uplinkCandidates ifaces = [] → likely_uplink dr ifaces = none) ∧
       (uplinkCandidates ifaces ≠ [] →
         ∃ m, likely_uplink dr ifaces = some m ∧
           m ∈ uplinkCandidates ifaces ∧
           (∀ j ∈ uplinkCandidates ifaces,
             j.rx_bps + j.tx_bps ≤ m.rx_bps + m.tx_bps) ∧
           ∃ pre post, uplinkCandidates ifaces = pre ++ m :: post ∧
             ∀ j ∈ pre, j.rx_bps + j.tx_bps < m.rx_bps + m.tx_bps))) := by
  constructor
  · rintro d rfl ⟨i, hi, hname⟩
    have hsome : (ifaces.find? fun i => i.name == d).isSome := by
      rw [List.find?_isSome]
      exact ⟨i, hi, by simp [hname]⟩
    obtain ⟨j, hj⟩ := Option.isSome_iff_exists.mp hsome
    refine ⟨j, ?_, List.mem_of_find?_eq_some hj, ?_, hj⟩
    · simp [likely_uplink, hj]
    · simpa using List.find?_some hj
  · intro hdr
    have hfr : likely_uplink dr ifaces =
        match uplinkCandidates ifaces with
        | [] => none
        | c :: cs => some (maxByKeyGo (fun i => i.rx_bps + i.tx_bps) c cs) := by
      rcases dr with _ | d
      · rfl
      · have hnone : ifaces.find? (fun i => i.name == d) = none := by
          rw [List.find?_eq_none]
          intro i hi
          rcases hdr with h | h
          · exact absurd h (by simp)
          · simpa using h d rfl i hi
        simp [likely_uplink, hnone]
    constructor
    · intro hcand
      rw [hfr, hcand]
    · intro hcand
      obtain ⟨c, cs, hccs⟩ := List.exists_cons_of_ne_nil hcand
      obtain ⟨h1, h2, h3⟩ := maxByKeyGo_spec (fun i => i.rx_bps + i.tx_bps) cs c
      have heq : likely_uplink dr ifaces =
          some (maxByKeyGo (fun i => i.rx_bps + i.tx_bps) c cs) := by
        rw [hfr, hccs]
      generalize hM : maxByKeyGo (fun i => i.rx_bps + i.tx_bps) c cs = M
        at h1 h2 h3 heq
      refine ⟨M, heq, ?_, ?_, ?_⟩
      · rcases h3 with hyp | ⟨pre, post, hsplit, _, _⟩
        · rw [hccs, hyp]; exact List.mem_cons_self _ _
        · rw [hccs, hsplit]
          exact List.mem_cons_of_mem _ (List.mem_append_right _
            (List.mem_cons_self _ _))
      · intro j hj
        rw [hccs] at hj
        rcases List.mem_cons.mp hj with rfl | hj
        · exact h2
        · exact h1 j hj
      · rcases h3 with hyp | ⟨pre, post, hsplit, hlt, hpre⟩
        · refine ⟨[], cs, ?_, by simp⟩
          rw [hccs, hyp, List.nil_append]
        · refine ⟨c :: pre, post, hccs.trans (congrArg (List.cons c) hsplit), ?_⟩
          intro j hj
          rcases List.mem_cons.mp hj with rfl | hj
          · exact hlt
          · exact hpre j hj

/-- Closed instance of `likely_uplink_procedure`: the probe names `"en0"`,
which is present but down with zero traffic while `"en1"` is up and busier;
`"en0"` is returned regardless. -/
theorem likely_uplink_procedure_witness :
    ∃ j, likely_uplink (some "en0")
        [{ name := "en1", is_up := true, speed_mbps := none, rx_bps := 500,
           tx_bps := 500, rx_bytes := 0, tx_bytes := 0 },
         { name := "en0", is_up := false, speed_mbps := none, rx_bps := 0,
           tx_bps := 0, rx_bytes := 0, tx_bytes := 0 }] = some j ∧
      j ∈ [{ name := "en1", is_up := true, speed_mbps := none, rx_bps := 500,
             tx_bps := 500, rx_bytes := 0, tx_bytes := 0 },
           { name := "en0", is_up := false, speed_mbps := none, rx_bps := 0,
             tx_bps := 0, rx_bytes := 0, tx_bytes := 0 }] ∧
      j.name = "en0" ∧
      List.find? (fun i => i.name == "en0")
        [{ name := "en1", is_up := true, speed_mbps := none, rx_bps := 500,
           tx_bps := 500, rx_bytes := 0, tx_bytes := 0 },
         { name := "en0", is_up := false, speed_mbps := none, rx_bps := 0,
           tx_bps := 0, rx_bytes := 0, tx_bytes := 0 }] = some j :=
  (likely_uplink_procedure (some "en0") _).1 "en0" rfl
    ⟨{ name := "en0", is_up := false, speed_mbps := none, rx_bps := 0,
       tx_bps := 0, rx_bytes := 0, tx_bytes := 0 },
     by simp, rfl⟩

/-- C10: a non-`none` result of `likely_uplink` is always an element of the
input list itself — the record is returned as-is, never fabricated or
modified. -/
theorem likely_uplink_mem (dr : Option String) (ifaces : List IfaceRate)
    (i : IfaceRate) (hi : likely_uplink dr ifaces = some i) : i ∈ ifaces := by
  have hmax : ∀ c cs, uplinkCandidates ifaces = c :: cs →
      likely_uplink dr ifaces =
        some (maxByKeyGo (fun i => i.rx_bps + i.tx_bps) c cs) →
      i ∈ ifaces := by
    intro c cs hccs hval
    obtain ⟨_, _, h3⟩ := maxByKeyGo_spec (fun i => i.rx_bps + i.tx_bps) cs c
    generalize hM : maxByKeyGo (fun i => i.rx_bps + i.tx_bps) c cs = M
      at h3 hval
    have hiM : i = M := by
      rw [hval] at hi
      exact (Option.some_inj.mp hi).symm
    subst hiM
    have hm : i ∈ uplinkCandidates ifaces := by
      rcases h3 with hyp | ⟨pre, post, hsplit, _, _⟩
      · rw [hccs, hyp]; exact List.mem_cons_self _ _
      · rw [hccs, hsplit]
        exact List.mem_cons_of_mem _ (List.mem_append_right _
          (List.mem_cons_self _ _))
    exact List.mem_of_mem_filter hm
  rcases dr with _ | d
  · rcases hc : uplinkCandidates ifaces with _ | ⟨c, cs⟩
    · rw [show likely_uplink none ifaces = none by
        simp [likely_uplink, hc]] at hi
      exact absurd hi (by simp)
    · exact hmax c cs hc (by simp [likely_uplink, hc])
  · rcases hfind : ifaces.find? (fun j => j.name == d) with _ | j
    · rcases hc : uplinkCandidates ifaces with _ | ⟨c, cs⟩
      · rw [show likely_uplink (some d) ifaces = none by
          simp [likely_uplink, hfind, hc]] at hi
        exact absurd hi (by simp)
      · exact hmax c cs hc (by simp [likely_uplink, hfind, hc])
    · have : likely_uplink (some d) ifaces = some j := by
        simp [likely_uplink, hfind]
      rw [this] at hi
      have hij : i = j := (Option.some_inj.mp hi).symm
      subst hij
      exact List.mem_of_find?_eq_some hfind

/-- Closed instance of `likely_uplink_mem`: with no route probe result and
two up interfaces, the busier one is returned and is an element of the
input. -/
theorem likely_uplink_mem_witness :
    ({ name := "en1", is_up := true, speed_mbps := none, rx_bps := 500,
       tx_bps := 500, rx_bytes := 0, tx_bytes := 0 } : IfaceRate) ∈
      [{ name := "en0", is_up := true, speed_mbps := none, rx_bps := 1,
         tx_bps := 1, rx_bytes := 0, tx_bytes := 0 },
       { name := "en1", is_up := true, speed_mbps := none, rx_bps := 500,
         tx_bps := 500, rx_bytes := 0, tx_bytes := 0 }] :=
  likely_uplink_mem none _ _ (by with_unfolding_all decide)

/-! ### Claim theorems: the sampling engine -/

theorem mkIfaceRate_name (s : ℚ) (s1 : List (String × NetIOCounters))
    (ifst : List (String × IfStat)) (e : String × NetIOCounters)
    (r : IfaceRate) (h : mkIfaceRate s s1 ifst e = some r) : r.name = e.1 := by
  unfold mkIfaceRate at h
  rcases hl : s1.lookup e.1 with _ | c1 <;> rw [hl] at h
  · exact absurd h (by simp)
  · obtain rfl := Option.some_inj.mp h
    rfl

theorem collectLoop_fst (s : ℚ) (s1 : List (String × NetIOCounters))
    (ifst : List (String × IfStat)) (l2 : List (String × NetIOCounters))
    (acc : List IfaceRate) (trx ttx : ℚ) :
    (collectLoop s s1 ifst l2 (acc, trx, ttx)).1 =
      acc ++ l2.filterMap (mkIfaceRate s s1 ifst) := by
  induction l2 generalizing acc trx ttx with
  | nil => simp [collectLoop]
  | cons e rest ih =>
    rcases hmk : mkIfaceRate s s1 ifst e with _ | r <;>
      simp [collectLoop, hmk, ih, List.filterMap_cons]

theorem collectLoop_totals (s : ℚ) (s1 : List (String × NetIOCounters))
    (ifst : List (String × IfStat)) (l2 : List (String × NetIOCounters))
    (acc : List IfaceRate) (trx ttx : ℚ) :
    (collectLoop s s1 ifst l2 (acc, trx, ttx)).2.1 =
      trx + (((l2.filterMap (mkIfaceRate s s1 ifst)).filter
        (fun r => r.is_up)).map (fun r => r.rx_bps)).sum ∧
    (collectLoop s s1 ifst l2 (acc, trx, ttx)).2.2 =
      ttx + (((l2.filterMap (mkIfaceRate s s1 ifst)).filter
        (fun r => r.is_up)).map (fun r => r.tx_bps)).sum := by
  induction l2 generalizing acc trx ttx with
  | nil => simp [collectLoop]
  | cons e rest ih =>
    rcases hmk : mkIfaceRate s s1 ifst e with _ | r
    · simpa [collectLoop, hmk, List.filterMap_cons] using ih acc trx ttx
    · rcases hup : r.is_up with _ | _
      · simpa [collectLoop, hmk, hup, List.filterMap_cons] using
          ih (acc ++ [r]) trx ttx
      · obtain ⟨ih1, ih2⟩ := ih (acc ++ [r]) (trx + r.rx_bps) (ttx + r.tx_bps)
        constructor
        · simp [collectLoop, hmk, hup, List.filterMap_cons, ih1, add_assoc]
        · simp [collectLoop, hmk, hup, List.filterMap_cons, ih2, add_assoc]

/-- C2: the sampling engine divides by `sample_seconds` clamped to 0.1 when
the caller supplies a value ≤ 0, and the output interfaces are, up to the
final sort, exactly one record per name present in both counter readings —
names in only one reading are dropped — with
`rx_bps = (bytes_recv₂ − bytes_recv₁) / sample_seconds` and the symmetric
`tx_bps`, reported as computed (a decreased counter yields the negative
quotient, never clamped to zero). -/
theorem collect_network_rates_spec (sample : ℚ)
    (stats1 : List (String × NetIOCounters)) (ifstats : List (String × IfStat))
    (stats2 : List (String × NetIOCounters)) :
    (collect_network_rates sample stats1 ifstats stats2).sample_seconds =
      (if sample ≤ 0 then 0.1 else sample) ∧
    ((collect_network_rates sample stats1 ifstats stats2).ifaces.map
        (fun e => (e.name, e.rx_bps, e.tx_bps))).Perm
      (stats2.filterMap fun e =>
        (stats1.lookup e.1).map fun c1 =>
          (e.1,
           ((e.2.bytes_recv - c1.bytes_recv : Int) : ℚ) /
             (if sample ≤ 0 then 0.1 else sample),
           ((e.2.bytes_sent - c1.bytes_sent : Int) : ℚ) /
             (if sample ≤ 0 then 0.1 else sample))) := by
  constructor
  · rfl
  · have hif : (collect_network_rates sample stats1 ifstats stats2).ifaces =
        ((collectLoop (if sample ≤ 0 then 0.1 else sample) stats1 ifstats
          stats2 ([], 0, 0)).1).mergeSort sortKeyLe := rfl
    rw [hif, collectLoop_fst, List.nil_append]
    refine (List.Perm.map _ (List.mergeSort_perm _ _)).trans ?_
    rw [List.map_filterMap]
    have hpt : ∀ e : String × NetIOCounters,
        (mkIfaceRate (if sample ≤ 0 then 0.1 else sample) stats1 ifstats
          e).map (fun r => (r.name, r.rx_bps, r.tx_bps)) =
        (stats1.lookup e.1).map fun c1 =>
          (e.1,
           ((e.2.bytes_recv - c1.bytes_recv : Int) : ℚ) /
             (if sample ≤ 0 then 0.1 else sample),
           ((e.2.bytes_sent - c1.bytes_sent : Int) : ℚ) /
             (if sample ≤ 0 then 0.1 else sample)) := by
      intro e
      unfold mkIfaceRate
      rcases stats1.lookup e.1 with _ | c1 <;> rfl
    simp only [hpt]
    exact List.Perm.refl _

/-- C4 counterexample: a world in which `en0` is down when the code samples
`net_if_stats()` (before the sleep, at the first counter reading) but up at
the second reading.  The sole output interface has `rx_bps = 100` and is up
per the second reading, so the claimed aggregation requires
`total_rx_bps = 100`; the code reports `0` — while the spec-worded
aggregation over second-reading link states (`run_collect_specStates`) does
give 100.  The interface still appears in the per-interface list. -/
theorem totals_second_reading_cex :
    (run_collect ⟨[("en0", ⟨0, 0⟩)], [("en0", ⟨false, none⟩)],
        [("en0", ⟨100, 0⟩)], [("en0", ⟨true, none⟩)]⟩ 1).total_rx_bps = 0 ∧
    (run_collect_specStates ⟨[("en0", ⟨0, 0⟩)], [("en0", ⟨false, none⟩)],
        [("en0", ⟨100, 0⟩)], [("en0", ⟨true, none⟩)]⟩ 1).total_rx_bps = 100 ∧
    ((run_collect ⟨[("en0", ⟨0, 0⟩)], [("en0", ⟨false, none⟩)],
        [("en0", ⟨100, 0⟩)], [("en0", ⟨true, none⟩)]⟩ 1).ifaces.map
      (fun e => (e.name, e.is_up, e.rx_bps))) = [("en0", false, 100)] := by
  with_unfolding_all decide

/-- C4 amended: the aggregate totals sum the rates of exactly those output
interfaces that are up in the single `net_if_stats()` sample — which is
taken at the FIRST counter reading, before the sleep, not at the second —
and an interface that is down there contributes nothing to the totals but
still appears in the per-interface list (witnessed by any record `e` the
counter loop produces). -/
theorem totals_up_only (w : NetWorld) (sample : ℚ) (e : IfaceRate)
    (he : e ∈ w.counters_t2.filterMap
      (mkIfaceRate (if sample ≤ 0 then 0.1 else sample) w.counters_t1
        w.ifstats_t1)) :
    (run_collect w sample).total_rx_bps =
      (((w.counters_t2.filterMap (mkIfaceRate
          (if sample ≤ 0 then 0.1 else sample) w.counters_t1
          w.ifstats_t1)).filter (fun r => r.is_up)).map
        (fun r => r.rx_bps)).sum ∧
    (run_collect w sample).total_tx_bps =
      (((w.counters_t2.filterMap (mkIfaceRate
          (if sample ≤ 0 then 0.1 else sample) w.counters_t1
          w.ifstats_t1)).filter (fun r => r.is_up)).map
        (fun r => r.tx_bps)).sum ∧
    e ∈ (run_collect w sample).ifaces := by
  obtain ⟨h1, h2⟩ := collectLoop_totals (if sample ≤ 0 then 0.1 else sample)
    w.counters_t1 w.ifstats_t1 w.counters_t2 [] 0 0
  refine ⟨by simpa using h1, by simpa using h2, ?_⟩
  have hif : (run_collect w sample).ifaces =
      ((collectLoop (if sample ≤ 0 then 0.1 else sample) w.counters_t1
        w.ifstats_t1 w.counters_t2 ([], 0, 0)).1).mergeSort sortKeyLe := rfl
  rw [hif, collectLoop_fst, List.nil_append]
  exact (List.mergeSort_perm _ _).mem_iff.mpr he

/-- Closed instance of `totals_up_only` at the flipping-link-state world:
the down interface record is in the output list. -/
theorem totals_up_only_witness :
    ({ name := "en0", is_up := false, speed_mbps := none, rx_bps := 100,
       tx_bps := 0, rx_bytes := 100, tx_bytes := 0 } : IfaceRate) ∈
      (run_collect ⟨[("en0", ⟨0, 0⟩)], [("en0", ⟨false, none⟩)],
        [("en0", ⟨100, 0⟩)], [("en0", ⟨true, none⟩)]⟩ 1).ifaces :=
  (totals_up_only ⟨[("en0", ⟨0, 0⟩)], [("en0", ⟨false, none⟩)],
      [("en0", ⟨100, 0⟩)], [("en0", ⟨true, none⟩)]⟩ 1 _
    (by with_unfolding_all decide)).2.2

/-! ### Claim theorems: snapshot ordering -/

theorem sortKeyLe_iff_le (a b : IfaceRate) :
    sortKeyLe a b = true ↔ sortKey a ≤ sortKey b := by
  cases ha : a.is_up <;> cases hb : b.is_up <;>
    simp [sortKeyLe, sortKey, Prod.Lex.le_iff, Bool.lt_iff, ha, hb]

theorem sortKeyLe_trans :
    ∀ (a b c : IfaceRate), sortKeyLe a b → sortKeyLe b c → sortKeyLe a c := by
  intro a b c hab hbc
  rw [sortKeyLe_iff_le] at hab hbc ⊢
  exact le_trans hab hbc

theorem sortKeyLe_total : ∀ (a b : IfaceRate), sortKeyLe a b || sortKeyLe b a := by
  intro a b
  rcases le_total (sortKey a) (sortKey b) with h | h
  · simp [(sortKeyLe_iff_le a b).mpr h]
  · simp [(sortKeyLe_iff_le b a).mpr h]

theorem sortKeyLe_antisymm_name (a b : IfaceRate)
    (h1 : sortKeyLe a b = true) (h2 : sortKeyLe b a = true) :
    a.name = b.name := by
  have h := le_antisymm ((sortKeyLe_iff_le a b).mp h1)
    ((sortKeyLe_iff_le b a).mp h2)
  unfold sortKey at h
  rw [toLex_inj, Prod.mk.injEq] at h
  obtain ⟨-, h⟩ := h
  rw [toLex_inj, Prod.mk.injEq] at h
  exact h.2

/-- Two lists sorted by the three-key order that are permutations of each
other and have pairwise-distinct names are equal. -/
theorem sorted_perm_nodup_eq (l₁ : List IfaceRate) :
    ∀ l₂ : List IfaceRate, l₁.Perm l₂ →
      l₁.Pairwise (fun a b => sortKeyLe a b = true) →
      l₂.Pairwise (fun a b => sortKeyLe a b = true) →
      (l₁.map (fun r => r.name)).Nodup → l₁ = l₂ := by
  induction l₁ with
  | nil =>
    intro l₂ hp _ _ _
    exact hp.nil_eq
  | cons a t₁ ih =>
    intro l₂ hp hs₁ hs₂ hnd
    rcases l₂ with _ | ⟨b, t₂⟩
    · exact absurd (hp.eq_nil) (by simp)
    · have hab : a = b := by
        by_contra hne
        have hb₁ : b ∈ t₁ := by
          rcases List.mem_cons.mp (hp.symm.subset (List.mem_cons_self b t₂))
            with h | h
          · exact absurd h.symm hne
          · exact h
        have ha₂ : a ∈ t₂ := by
          rcases List.mem_cons.mp (hp.subset (List.mem_cons_self a t₁))
            with h | h
          · exact absurd h hne
          · exact h
        have h1 := (List.pairwise_cons.mp hs₁).1 b hb₁
        have h2 := (List.pairwise_cons.mp hs₂).1 a ha₂
        have hname := sortKeyLe_antisymm_name a b h1 h2
        have : a.name ∈ t₁.map (fun r => r.name) := by
          rw [hname]
          exact List.mem_map_of_mem _ hb₁
        simp only [List.map_cons, List.nodup_cons] at hnd
        exact hnd.1 this
      subst hab
      have hnd' : (t₁.map (fun r => r.name)).Nodup := by
        simp only [List.map_cons, List.nodup_cons] at hnd
        exact hnd.2
      rw [ih t₂ hp.cons_inv (List.pairwise_cons.mp hs₁).2
        (List.pairwise_cons.mp hs₂).2 hnd']

theorem filterMap_mk_names_sublist (s : ℚ)
    (s1 : List (String × NetIOCounters)) (ifst : List (String × IfStat)) :
    ∀ l2 : List (String × NetIOCounters),
      ((l2.filterMap (mkIfaceRate s s1 ifst)).map
        (fun r => r.name)).Sublist (l2.map Prod.fst) := by
  intro l2
  induction l2 with
  | nil => simp
  | cons e rest ih =>
    rcases hmk : mkIfaceRate s s1 ifst e with _ | r
    · simp only [List.filterMap_cons, hmk, List.map_cons]
      exact ih.cons e.1
    · simp only [List.filterMap_cons, hmk, List.map_cons]
      rw [mkIfaceRate_name s s1 ifst e r hmk]
      exact ih.cons₂ e.1

/-- C5: the interface list of every network snapshot is sorted by the
three-key order — `is_up` descending first, then `rx_bps + tx_bps`
descending, then `name` ascending (`sortKeyLe` decides exactly that
lexicographic comparison) — and, the names of the second reading being
distinct (they are dict keys), the output order is a function of the input
values alone: feeding the second reading in any other enumeration order
yields the identical output list. -/
theorem ifaces_sorted_deterministic (sample : ℚ)
    (stats1 : List (String × NetIOCounters)) (ifstats : List (String × IfStat))
    (stats2 stats2' : List (String × NetIOCounters))
    (hperm : stats2.Perm stats2') (hnd : (stats2.map Prod.fst).Nodup) :
    ((collect_network_rates sample stats1 ifstats stats2).ifaces.Pairwise
      (fun a b => sortKeyLe a b = true)) ∧
    (collect_network_rates sample stats1 ifstats stats2).ifaces =
      (collect_network_rates sample stats1 ifstats stats2').ifaces := by
  have hif : ∀ l2 : List (String × NetIOCounters),
      (collect_network_rates sample stats1 ifstats l2).ifaces =
        ((l2.filterMap (mkIfaceRate (if sample ≤ 0 then 0.1 else sample)
          stats1 ifstats)).mergeSort sortKeyLe) := by
    intro l2
    have : (collect_network_rates sample stats1 ifstats l2).ifaces =
        ((collectLoop (if sample ≤ 0 then 0.1 else sample) stats1 ifstats
          l2 ([], 0, 0)).1).mergeSort sortKeyLe := rfl
    rw [this, collectLoop_fst, List.nil_append]
  have hsorted : ∀ l2 : List (String × NetIOCounters),
      (collect_network_rates sample stats1 ifstats l2).ifaces.Pairwise
        (fun a b => sortKeyLe a b = true) := by
    intro l2
    rw [hif]
    exact List.sorted_mergeSort sortKeyLe_trans sortKeyLe_total _
  refine ⟨hsorted stats2, ?_⟩
  have hP : ((stats2.filterMap (mkIfaceRate
      (if sample ≤ 0 then 0.1 else sample) stats1 ifstats))).Perm
      (stats2'.filterMap (mkIfaceRate (if sample ≤ 0 then 0.1 else sample)
        stats1 ifstats)) := hperm.filterMap _
  have hEE : ((collect_network_rates sample stats1 ifstats stats2).ifaces).Perm
      ((collect_network_rates sample stats1 ifstats stats2').ifaces) := by
    rw [hif, hif]
    exact (List.mergeSort_perm _ _).trans
      (hP.trans (List.mergeSort_perm _ _).symm)
  have hndE : (((collect_network_rates sample stats1 ifstats
      stats2).ifaces).map (fun r => r.name)).Nodup := by
    have hsub := filterMap_mk_names_sublist
      (if sample ≤ 0 then 0.1 else sample) stats1 ifstats stats2
    have hnd₁ := hnd.sublist hsub
    have hpm : (((collect_network_rates sample stats1 ifstats
        stats2).ifaces).map (fun r => r.name)).Perm
        ((stats2.filterMap (mkIfaceRate (if sample ≤ 0 then 0.1 else sample)
          stats1 ifstats)).map (fun r => r.name)) := by
      rw [hif]
      exact List.Perm.map _ (List.mergeSort_perm _ _)
    exact hpm.nodup_iff.mpr hnd₁
  exact sorted_perm_nodup_eq _ _ hEE (hsorted stats2) (hsorted stats2') hndE

/-- Closed instance of `ifaces_sorted_deterministic`: swapping the
enumeration order of a two-interface second reading leaves the sorted output
identical. -/
theorem ifaces_sorted_deterministic_witness :
    ((collect_network_rates 1 [("a", ⟨0, 0⟩), ("b", ⟨0, 0⟩)]
        [("a", ⟨true, none⟩), ("b", ⟨true, none⟩)]
        [("a", ⟨10, 0⟩), ("b", ⟨20, 0⟩)]).ifaces.Pairwise
      (fun a b => sortKeyLe a b = true)) ∧
    (collect_network_rates 1 [("a", ⟨0, 0⟩), ("b", ⟨0, 0⟩)]
        [("a", ⟨true, none⟩), ("b", ⟨true, none⟩)]
        [("a", ⟨10, 0⟩), ("b", ⟨20, 0⟩)]).ifaces =
      (collect_network_rates 1 [("a", ⟨0, 0⟩), ("b", ⟨0, 0⟩)]
        [("a", ⟨true, none⟩), ("b", ⟨true, none⟩)]
        [("b", ⟨20, 0⟩), ("a", ⟨10, 0⟩)]).ifaces :=
  ifaces_sorted_deterministic 1 _ _ _ _
    (List.Perm.swap _ _ _) (by with_unfolding_all decide)

end Sysmon

/-! ### Concrete evaluations

Spot checks of the embedding against the documented sample values
(`fmt_bytes` table, the 2048-bytes-over-2-seconds rate sample, and the
route-probe precedence of the uplink selector). -/

namespace SysmonExamples
open Sysmon
example : (0.60 : ℚ) = 3 / 5 := by norm_num
example : fmt_bytes 0 = "0 B" := by with_unfolding_all decide
example : fmt_bytes 1024 = "1.00 KB" := by with_unfolding_all decide
example : fmt_bytes 1536 = "1.50 KB" := by with_unfolding_all decide
example : fmt_bytes 1073741824 = "1.00 GB" := by with_unfolding_all decide
example : fmt_uptime_s 90000 = "1d 1h 0m" := by with_unfolding_all decide
example : fmt_uptime_s 3700 = "1h 1m" := by with_unfolding_all decide
example : cpu_health_label 0 (some 0.60) = "BUSY" := by with_unfolding_all decide
example : fmt_rate 512 = "512 B/s" := by with_unfolding_all decide
example : fmt_rate 1536 = "1.50 KB/s" := by with_unfolding_all decide
example : fmt_rate ((1024:ℚ)^4) = "1024.00 GB/s" := by with_unfolding_all decide
example : fmt_bytes (1024^4) = "1.00 TB" := by with_unfolding_all decide
example :
    likely_uplink (some "en0")
      [{ name := "en0", is_up := false, speed_mbps := none, rx_bps := 0,
         tx_bps := 0, rx_bytes := 0, tx_bytes := 0 }] =
    some { name := "en0", is_up := false, speed_mbps := none, rx_bps := 0,
           tx_bps := 0, rx_bytes := 0, tx_bytes := 0 } := by
  with_unfolding_all decide
example :
    (collect_network_rates 2 [("en0", ⟨0, 0⟩)] [("en0", ⟨true, none⟩)]
      [("en0", ⟨2048, 0⟩)]).total_rx_bps = 1024 := by
  with_unfolding_all decide
end SysmonExamples
